import Mathlib

set_option maxRecDepth 100000

/-!
Verification of the dominant-hue classification core of
`sort_wallpapers_by_color.py`.

The pixel grid is modelled as a list of RGB triples with exact rational
channel values in [0,1] (the Python code works on float arrays; we use ℚ so
that every value is exact and every predicate is decidable).  The functions
below are direct transcriptions of:
  * `colorsys.rgb_to_hsv` (the per-pixel RGB→HSV transform used via the
    list comprehension in `analyze_image_dominant_hue`),
  * the saturation/value gate `(s >= min_sat) & (v >= min_val)`,
  * `np.histogram(h[mask], bins=bins, range=(0.0, 360.0), weights=weights)`
    restricted to its uniform-bin behaviour (values outside [0,360] are
    dropped, interior bins are half-open `[edge, next_edge)`, the final bin
    additionally includes the right endpoint 360),
  * `np.argmax` (index of the first maximum),
  * `analyze_image_dominant_hue` itself (decoding is modelled by an
    `Except` input: the `except` branch of the Python code),
  * `hue_to_color_name` with the `COLOR_RANGES` table, and
  * the colour-label override in `process_folder`.
-/

/-- Binary maximum on ℚ, written out so that it evaluates by kernel
reduction (the lattice `max` of Mathlib does not); equal to `max`. -/
def qmax (a b : ℚ) : ℚ :=
  if a ≤ b then b else a

/-- Binary minimum on ℚ, written out so that it evaluates by kernel
reduction; equal to `min`. -/
def qmin (a b : ℚ) : ℚ :=
  if a ≤ b then a else b

/-- An RGB pixel; channels are rationals, intended range [0,1]. -/
structure RGB where
  r : ℚ
  g : ℚ
  b : ℚ
deriving DecidableEq

/-- An HSV triple as produced by `colorsys.rgb_to_hsv`: `h` is in [0,1)
(the Python code later multiplies by 360), `s` and `v` are in [0,1]. -/
structure HSV where
  h : ℚ
  s : ℚ
  v : ℚ
deriving DecidableEq

/-- `colorsys.rgb_to_hsv`, transcribed.  Python's `x % 1.0` on the final
hue is `x - ⌊x⌋`. -/
def rgb_to_hsv (p : RGB) : HSV :=
  let maxc := qmax p.r (qmax p.g p.b)
  let minc := qmin p.r (qmin p.g p.b)
  let v := maxc
  if minc = maxc then ⟨0, 0, v⟩
  else
    let s := (maxc - minc) / maxc
    let rc := (maxc - p.r) / (maxc - minc)
    let gc := (maxc - p.g) / (maxc - minc)
    let bc := (maxc - p.b) / (maxc - minc)
    let h :=
      if p.r = maxc then bc - gc
      else if p.g = maxc then 2 + rc - bc
      else 4 + gc - rc
    ⟨h / 6 - (Rat.floor (h / 6) : ℚ), s, v⟩

/-- The per-pixel HSV list: `hsv = [colorsys.rgb_to_hsv(r,g,b) for ...]`. -/
def hsvList (pixels : List RGB) : List HSV :=
  pixels.map rgb_to_hsv

/-- The saturation/value gate `(s >= min_sat) & (v >= min_val)`. -/
def gateB (min_sat min_val : ℚ) (t : HSV) : Bool :=
  decide (min_sat ≤ t.s) && decide (min_val ≤ t.v)

/-- The gated pixels (the HSV triples selected by the mask). -/
def gatedList (pixels : List RGB) (min_sat min_val : ℚ) : List HSV :=
  (hsvList pixels).filter (gateB min_sat min_val)

/-- `(hue in degrees, weight)` for each gated pixel:
`h*360` and `weights = (s[mask] * v[mask]) + 1e-6`. -/
def weightedData (pixels : List RGB) (min_sat min_val : ℚ) : List (ℚ × ℚ) :=
  (gatedList pixels min_sat min_val).map
    (fun t => (t.h * 360, t.s * t.v + 1 / 1000000))

/-- Bin assignment of `np.histogram(·, bins, range=(0,360))` for a single
value: values outside [0,360] are dropped, a value `x` with
`0 ≤ x < 360` lands in bin `⌊x·bins/360⌋` (interior edges belong to the
bin on their right), and `x = 360` lands in the last bin. -/
def npBinIdx (bins : ℕ) (x : ℚ) : Option ℕ :=
  if x < 0 ∨ 360 < x then none
  else if x = 360 then some (bins - 1)
  else some (Rat.floor (x * (bins : ℚ) / 360)).toNat

/-- The weighted histogram of `np.histogram`: bin `i` holds the sum of the
weights of the data points assigned to bin `i`. -/
def histogram (bins : ℕ) (data : List (ℚ × ℚ)) : List ℚ :=
  (List.range bins).map
    (fun i => ((data.filter (fun dw => decide (npBinIdx bins dw.1 = some i))).map
      Prod.snd).sum)

/-- The histogram built by `analyze_image_dominant_hue` from a pixel grid. -/
def gatedHist (pixels : List RGB) (min_sat min_val : ℚ) (bins : ℕ) : List ℚ :=
  histogram bins (weightedData pixels min_sat min_val)

/-- Maximum of a list of rationals (0 for the empty list; only used on
nonempty lists). -/
def listMax : List ℚ → ℚ
  | [] => 0
  | [x] => x
  | x :: y :: xs => max x (listMax (y :: xs))

/-- `np.argmax`: the index of the first maximum of the list (0 on the
empty list). -/
def argmax : List ℚ → ℕ
  | [] => 0
  | [_] => 0
  | x :: y :: xs => if x < listMax (y :: xs) then argmax (y :: xs) + 1 else 0

/-- `np.mean`: the arithmetic mean of a list (used on the ungated
saturation and value channels). -/
def mean (l : List ℚ) : ℚ :=
  l.sum / (l.length : ℚ)

/-- Edge `i` of `np.histogram`'s uniform binning of [0,360]:
`linspace(0, 360, bins+1)[i] = i·360/bins`. -/
def binEdge (bins : ℕ) (i : ℕ) : ℚ :=
  (i : ℚ) * 360 / (bins : ℚ)

/-- Python's `x % 360.0` for rationals. -/
def qmod360 (x : ℚ) : ℚ :=
  x - 360 * (Rat.floor (x / 360) : ℚ)

/-- The body of `analyze_image_dominant_hue` after a successful decode
(everything below the `try/except` block). -/
def analyzePixels (pixels : List RGB) (min_sat min_val : ℚ) (bins : ℕ) :
    Option ℚ × String :=
  if (gatedList pixels min_sat min_val).length = 0 then
    if mean ((hsvList pixels).map HSV.v) < 12 / 100 then (none, "too_dark")
    else if mean ((hsvList pixels).map HSV.s) < 8 / 100 then
      (none, "low_saturation")
    else (none, "no_pixels_after_filter")
  else if (gatedHist pixels min_sat min_val bins).sum = 0 then
    (none, "empty_histogram")
  else
    (some (qmod360 ((binEdge bins (argmax (gatedHist pixels min_sat min_val bins)) +
        binEdge bins (argmax (gatedHist pixels min_sat min_val bins) + 1)) / 2)),
      "hist_peak_bin_" ++ toString (argmax (gatedHist pixels min_sat min_val bins)))

/-- `analyze_image_dominant_hue`.  Decoding and resizing are collaborator
responsibilities; the decode outcome is the `Except` argument.  The
`.error` case is the Python `except` branch returning
`(None, f"error_opening:{e}")`. -/
def analyze_image_dominant_hue (decoded : Except String (List RGB))
    (min_sat min_val : ℚ) (bins : ℕ) : Option ℚ × String :=
  match decoded with
  | .error e => (none, "error_opening:" ++ e)
  | .ok pixels => analyzePixels pixels min_sat min_val bins

/-- `DEFAULT_MIN_SAT = 0.15`. -/
def DEFAULT_MIN_SAT : ℚ := 15 / 100

/-- `DEFAULT_MIN_VAL = 0.15`. -/
def DEFAULT_MIN_VAL : ℚ := 15 / 100

/-- `NUM_BINS = 36`. -/
def NUM_BINS : ℕ := 36

/-- The `COLOR_RANGES` table, in the declared (insertion) order of the
Python dict. -/
def COLOR_RANGES : List (String × List (ℚ × ℚ)) :=
  [("red", [(345, 360), (0, 15)]),
   ("orange", [(15, 30)]),
   ("yellow", [(30, 60)]),
   ("green", [(60, 170)]),
   ("cyan", [(170, 200)]),
   ("blue", [(200, 260)]),
   ("purple", [(260, 300)]),
   ("pink", [(300, 345)])]

/-- The inner loop of `hue_to_color_name`: does `hue` fall in one of the
given ranges?  A range with `start ≤ end` matches `start ≤ hue < end`; a
wraparound range (`start > end`) matches `hue ≥ start or hue < end`. -/
def matchRanges (hue : ℚ) : List (ℚ × ℚ) → Bool
  | [] => false
  | (s, e) :: rest =>
    (if s ≤ e then decide (s ≤ hue) && decide (hue < e)
     else decide (s ≤ hue) || decide (hue < e)) || matchRanges hue rest

/-- The outer loop of `hue_to_color_name`: the first table entry with a
matching range wins; `"other"` if none matches. -/
def firstColor (hue : ℚ) : List (String × List (ℚ × ℚ)) → String
  | [] => "other"
  | (name, rs) :: rest =>
    if matchRanges hue rs then name else firstColor hue rest

/-- `hue_to_color_name`: `None` maps to `"neutral"`, otherwise the first
matching entry of `COLOR_RANGES` (or `"other"`). -/
def hue_to_color_name (hue : Option ℚ) : String :=
  match hue with
  | none => "neutral"
  | some h => firstColor h COLOR_RANGES

/-- The colour-label assignment in `process_folder`: start from
`hue_to_color_name(hue)`, then override to `"dark"` when
`hue is None and reason in ("too_dark",)` and to `"neutral"` when
`hue is None and reason in ("low_saturation",)`. -/
def assign_color (hue : Option ℚ) (reason : String) : String :=
  let color := hue_to_color_name hue
  if hue = none ∧ reason = "too_dark" then "dark"
  else if hue = none ∧ reason = "low_saturation" then "neutral"
  else color

/-- A 2×2 all-black grid. -/
def blackGrid : List RGB :=
  List.replicate 4 ⟨0, 0, 0⟩

/-- A 2×2 all-gray grid (R=G=B=0.5). -/
def grayGrid : List RGB :=
  List.replicate 4 ⟨1/2, 1/2, 1/2⟩

/-- A two-pixel grid: one pure-green pixel and one pure-blue pixel
(equal counts, equal weights). -/
def greenBlueGrid : List RGB :=
  [⟨0, 1, 0⟩, ⟨0, 0, 1⟩]

/-- A single pure-red pixel (saturation 1, value 1, hue 0). -/
def redGrid : List RGB :=
  [⟨1, 0, 0⟩]

/-- A single pixel whose hue is exactly 15 degrees. -/
def hue15Grid : List RGB :=
  [⟨1, 1/4, 0⟩]

/-- `qmax` agrees with the order-theoretic `max`. -/
theorem qmax_eq_max (a b : ℚ) : qmax a b = max a b := by
  rw [qmax, max_def]

/-- `qmin` agrees with the order-theoretic `min`. -/
theorem qmin_eq_min (a b : ℚ) : qmin a b = min a b := by
  rw [qmin, min_def]

/-- `Rat.floor` agrees with the `FloorRing` floor. -/
theorem ratFloor_eq_floor (q : ℚ) : Rat.floor q = ⌊q⌋ :=
  (Rat.floor_def' q).trans Rat.floor_def.symm

/-- Every element of a list is at most its `listMax`. -/
theorem le_listMax {l : List ℚ} {x : ℚ} (hx : x ∈ l) : x ≤ listMax l := by
  induction l with
  | nil => cases hx
  | cons a t ih =>
    cases t with
    | nil =>
      rcases List.mem_cons.mp hx with rfl | h
      · exact le_refl _
      · cases h
    | cons b u =>
      show x ≤ max a (listMax (b :: u))
      rcases List.mem_cons.mp hx with rfl | h
      · exact le_max_left _ _
      · exact le_trans (ih h) (le_max_right _ _)

/-- `listMax` of a nonempty list is one of its elements. -/
theorem listMax_mem : ∀ {l : List ℚ}, l ≠ [] → listMax l ∈ l := by
  intro l
  induction l with
  | nil => intro h; exact absurd rfl h
  | cons a t ih =>
    intro _
    cases t with
    | nil => show a ∈ [a]; exact List.mem_singleton.mpr rfl
    | cons b u =>
      show max a (listMax (b :: u)) ∈ _
      rcases max_cases a (listMax (b :: u)) with ⟨he, _⟩ | ⟨he, _⟩
      · rw [he]; exact List.mem_cons_self _ _
      · rw [he]; exact List.mem_cons_of_mem _ (ih (by simp))

/-- `argmax` of a nonempty list is a valid index. -/
theorem argmax_lt_length {l : List ℚ} (h : l ≠ []) : argmax l < l.length := by
  induction l with
  | nil => exact absurd rfl h
  | cons a t ih =>
    cases t with
    | nil => show 0 < 1; exact Nat.one_pos
    | cons b u =>
      show (if a < listMax (b :: u) then argmax (b :: u) + 1 else 0) < _
      by_cases hlt : a < listMax (b :: u)
      · rw [if_pos hlt]
        exact Nat.succ_lt_succ (ih (by simp))
      · rw [if_neg hlt]
        exact Nat.succ_pos _

/-- The element at index `argmax` is the maximum of the list. -/
theorem getD_argmax {l : List ℚ} (h : l ≠ []) :
    l.getD (argmax l) 0 = listMax l := by
  induction l with
  | nil => exact absurd rfl h
  | cons a t ih =>
    cases t with
    | nil => rfl
    | cons b u =>
      show List.getD _ (if a < listMax (b :: u) then argmax (b :: u) + 1 else 0) 0 =
        max a (listMax (b :: u))
      by_cases hlt : a < listMax (b :: u)
      · rw [if_pos hlt, List.getD_cons_succ, ih (by simp)]
        exact (max_eq_right (le_of_lt hlt)).symm
      · rw [if_neg hlt, List.getD_cons_zero]
        exact (max_eq_left (le_of_not_lt hlt)).symm

/-- Every index strictly before `argmax` holds a strictly smaller value:
`argmax` is the FIRST maximum. -/
theorem getD_lt_listMax_of_lt_argmax {l : List ℚ} {j : ℕ} (h : j < argmax l) :
    l.getD j 0 < listMax l := by
  induction l generalizing j with
  | nil => cases h
  | cons a t ih =>
    cases t with
    | nil => cases h
    | cons b u =>
      have harg : argmax (a :: b :: u) =
          if a < listMax (b :: u) then argmax (b :: u) + 1 else 0 := rfl
      by_cases hlt : a < listMax (b :: u)
      · rw [harg, if_pos hlt] at h
        have hM : listMax (a :: b :: u) = listMax (b :: u) :=
          max_eq_right (le_of_lt hlt)
        cases j with
        | zero => rw [List.getD_cons_zero, hM]; exact hlt
        | succ j' =>
          rw [List.getD_cons_succ, hM]
          exact ih (Nat.lt_of_succ_lt_succ h)
      · rw [harg, if_neg hlt] at h
        cases h

/-- If the head dominates the tail, the first maximum is at index 0. -/
theorem argmax_cons_of_le {x : ℚ} {xs : List ℚ} (h : ∀ y ∈ xs, y ≤ x) :
    argmax (x :: xs) = 0 := by
  cases xs with
  | nil => rfl
  | cons b u =>
    have hle : listMax (b :: u) ≤ x := h _ (listMax_mem (by simp))
    show (if x < listMax (b :: u) then argmax (b :: u) + 1 else 0) = 0
    rw [if_neg (not_lt.mpr hle)]

/-- An in-bounds `getD` is an element of the list. -/
theorem getD_mem {l : List ℚ} {j : ℕ} (h : j < l.length) : l.getD j 0 ∈ l := by
  induction l generalizing j with
  | nil => cases h
  | cons a t ih =>
    cases j with
    | zero => rw [List.getD_cons_zero]; exact List.mem_cons_self _ _
    | succ j' =>
      rw [List.getD_cons_succ]
      exact List.mem_cons_of_mem _ (ih (by simpa using h))

/-- A list with nonnegative entries, one of which is positive, has a
positive sum. -/
theorem sum_pos_of_mem {l : List ℚ} {x : ℚ} (hx : x ∈ l) (hpos : 0 < x)
    (hnn : ∀ y ∈ l, 0 ≤ y) : 0 < l.sum := by
  induction l with
  | nil => cases hx
  | cons a t ih =>
    rw [List.sum_cons]
    have ht : 0 ≤ t.sum :=
      List.sum_nonneg (fun y hy => hnn y (List.mem_cons_of_mem _ hy))
    rcases List.mem_cons.mp hx with rfl | h
    · linarith
    · have ha : 0 ≤ a := hnn a (List.mem_cons_self _ _)
      have := ih h (fun y hy => hnn y (List.mem_cons_of_mem _ hy))
      linarith

/-- Filtering a constant list keeps everything or nothing. -/
theorem filter_replicate (p : α → Bool) (a : α) (n : ℕ) :
    (List.replicate n a).filter p =
      if p a = true then List.replicate n a else [] := by
  induction n with
  | zero => simp
  | succ m ih =>
    by_cases h : p a = true
    · simp [List.replicate_succ, List.filter_cons, h, ih]
    · simp [List.replicate_succ, List.filter_cons, h, ih]

/-- The peak reason string is never the defensive `"empty_histogram"`. -/
theorem hist_peak_ne (n : ℕ) :
    "hist_peak_bin_" ++ toString n ≠ "empty_histogram" := by
  intro h
  have hd : ("hist_peak_bin_".data ++ (toString n).data) = "empty_histogram".data := by
    have h2 := congrArg String.data h
    rw [String.data_append] at h2
    exact h2
  have e1 : "hist_peak_bin_".data =
      'h' :: ['i', 's', 't', '_', 'p', 'e', 'a', 'k', '_', 'b', 'i', 'n', '_'] := rfl
  rw [e1, List.cons_append] at hd
  have : 'h' = 'e' := List.head_eq_of_cons_eq hd
  exact absurd this (by decide)

/-- The histogram always has exactly `bins` buckets. -/
theorem histogram_length (bins : ℕ) (data : List (ℚ × ℚ)) :
    (histogram bins data).length = bins := by
  simp [histogram]

/-- The fractional part `x - floor x` lies in [0,1). -/
theorem fract_nonneg_lt_one (x : ℚ) :
    0 ≤ x - (Rat.floor x : ℚ) ∧ x - (Rat.floor x : ℚ) < 1 := by
  rw [ratFloor_eq_floor]
  constructor
  · exact sub_nonneg.mpr (Int.floor_le x)
  · have := Int.lt_floor_add_one x
    linarith

/-- The hue field produced by `rgb_to_hsv` lies in [0,1). -/
theorem hsv_h_range (p : RGB) :
    0 ≤ (rgb_to_hsv p).h ∧ (rgb_to_hsv p).h < 1 := by
  simp only [rgb_to_hsv]
  split
  · exact ⟨le_refl 0, zero_lt_one⟩
  · exact fract_nonneg_lt_one _

/-- For a pixel with nonnegative channels, saturation and value are
nonnegative. -/
theorem hsv_sv_nonneg {p : RGB} (hr : 0 ≤ p.r) (_hg : 0 ≤ p.g) (_hb : 0 ≤ p.b) :
    0 ≤ (rgb_to_hsv p).s ∧ 0 ≤ (rgb_to_hsv p).v := by
  have hmax : 0 ≤ qmax p.r (qmax p.g p.b) := by
    rw [qmax_eq_max, qmax_eq_max]
    exact le_trans hr (le_max_left _ _)
  have hminmax : qmin p.r (qmin p.g p.b) ≤ qmax p.r (qmax p.g p.b) := by
    rw [qmax_eq_max, qmax_eq_max, qmin_eq_min, qmin_eq_min]
    exact le_trans (min_le_left _ _) (le_max_left _ _)
  simp only [rgb_to_hsv]
  split
  · exact ⟨le_refl 0, hmax⟩
  · exact ⟨div_nonneg (by linarith) hmax, hmax⟩

/-- A value in [0,360) is assigned a bin, and that bin is in range. -/
theorem npBinIdx_of_range {bins : ℕ} (hb : 0 < bins) {x : ℚ}
    (h0 : 0 ≤ x) (h1 : x < 360) :
    npBinIdx bins x = some (Rat.floor (x * (bins : ℚ) / 360)).toNat ∧
      (Rat.floor (x * (bins : ℚ) / 360)).toNat < bins := by
  constructor
  · have hcond : ¬(x < 0 ∨ 360 < x) := by
      push_neg
      exact ⟨h0, le_of_lt h1⟩
    simp only [npBinIdx]
    rw [if_neg hcond, if_neg (ne_of_lt h1)]
  · rw [ratFloor_eq_floor]
    have hlt : ⌊x * (bins : ℚ) / 360⌋ < (bins : ℤ) := by
      apply Int.floor_lt.mpr
      push_cast
      rw [div_lt_iff₀ (by norm_num : (0:ℚ) < 360)]
      have hx : x * (bins : ℚ) < 360 * (bins : ℚ) :=
        mul_lt_mul_of_pos_right h1 (by exact_mod_cast hb)
      linarith
    omega

/-- `firstColor` returns the name of the first table entry whose ranges
match, and `"other"` when none does. -/
theorem firstColor_eq_find (h : ℚ) (l : List (String × List (ℚ × ℚ))) :
    firstColor h l =
      ((l.find? (fun ce => matchRanges h ce.2)).map Prod.fst).getD "other" := by
  induction l with
  | nil => rfl
  | cons a rest ih =>
    obtain ⟨name, rs⟩ := a
    show (if matchRanges h rs then name else firstColor h rest) = _
    by_cases hm : matchRanges h rs = true
    · simp [List.find?, hm]
    · simp [List.find?, hm, ih]

/-- Claim C3: for every non-`None` hue, `hue_to_color_name` performs a
first-match lookup of the `COLOR_RANGES` table in declared order (with the
half-open / wraparound semantics embodied in `matchRanges`); a boundary hue
of 15 maps to `"orange"` (where it is the inclusive lower bound), not
`"red"`, and the wraparound red range sends both 350 and 5 to `"red"`. -/
theorem hue_lookup_first_match :
    (∀ h : ℚ, hue_to_color_name (some h) =
        ((COLOR_RANGES.find? (fun ce => matchRanges h ce.2)).map Prod.fst).getD "other") ∧
    hue_to_color_name (some 15) = "orange" ∧
    hue_to_color_name (some 350) = "red" ∧
    hue_to_color_name (some 5) = "red" := by
  refine ⟨fun h => firstColor_eq_find h COLOR_RANGES, ?_, ?_, ?_⟩
  · with_unfolding_all decide
  · with_unfolding_all decide
  · with_unfolding_all decide

/-- Claim C4: `"too_dark"` is labelled `"dark"`, `"low_saturation"` is
labelled `"neutral"`, and every other hue-`None` reason is labelled
`"neutral"`; the all-black grid yields reason `"too_dark"` and label
`"dark"`, and the all-gray grid yields reason `"low_saturation"` and label
`"neutral"`. -/
theorem none_reason_label_mapping :
    assign_color none "too_dark" = "dark" ∧
    assign_color none "low_saturation" = "neutral" ∧
    (∀ r : String, r ≠ "too_dark" → assign_color none r = "neutral") ∧
    (analyze_image_dominant_hue (.ok blackGrid) DEFAULT_MIN_SAT DEFAULT_MIN_VAL
        NUM_BINS = (none, "too_dark") ∧
      assign_color none "too_dark" = "dark") ∧
    (analyze_image_dominant_hue (.ok grayGrid) DEFAULT_MIN_SAT DEFAULT_MIN_VAL
        NUM_BINS = (none, "low_saturation") ∧
      assign_color none "low_saturation" = "neutral") := by
  refine ⟨by decide, by decide, ?_,
    ⟨by with_unfolding_all decide, by decide⟩,
    ⟨by with_unfolding_all decide, by decide⟩⟩
  intro r hr
  by_cases hls : r = "low_saturation"
  · subst hls
    decide
  · simp only [assign_color, hue_to_color_name]
    rw [if_neg (fun hc => hr hc.2), if_neg (fun hc => hls hc.2)]

/-- Witness for C4: the catch-all branch at the concrete reason
`"empty_histogram"`. -/
theorem none_reason_label_mapping_witness :
    "empty_histogram" ≠ "too_dark" ∧
      assign_color none "empty_histogram" = "neutral" :=
  ⟨by decide, none_reason_label_mapping.2.2.1 "empty_histogram" (by decide)⟩

/-- Claim C6: a decode failure is surfaced as the tagged reason
`error_opening:<details>` with hue `None`; the classifier is a total
function, so no exception escapes. -/
theorem decode_failure_tagged_reason (e : String) (min_sat min_val : ℚ)
    (bins : ℕ) :
    analyze_image_dominant_hue (.error e) min_sat min_val bins =
      (none, "error_opening:" ++ e) := rfl

/-- Claim C9: the classifier is deterministic — it is modelled as a pure
function of its arguments, so two runs on the same decoded grid with the
same parameters return the same (hue, reason) pair. -/
theorem classifier_deterministic (decoded : Except String (List RGB))
    (min_sat min_val : ℚ) (bins : ℕ) :
    analyze_image_dominant_hue decoded min_sat min_val bins =
      analyze_image_dominant_hue decoded min_sat min_val bins := rfl

/-- Claim C1: when at least one pixel passes the gate and the histogram
total weight is nonzero, the classifier returns the midpoint angle
(mod 360) of the histogram bucket with maximum total weight — ties broken
by the lowest bucket index, i.e. the first maximum in ascending bin
order — together with reason `hist_peak_bin_<index>` for that zero-based
index.  (The two-cluster green/blue tie instance is checked in the
witness.) -/
theorem dominant_hue_is_first_peak_midpoint (pixels : List RGB)
    (min_sat min_val : ℚ) (bins : ℕ)
    (hgate : gatedList pixels min_sat min_val ≠ [])
    (hsum : (gatedHist pixels min_sat min_val bins).sum ≠ 0) :
    analyze_image_dominant_hue (.ok pixels) min_sat min_val bins =
      (some (qmod360
          ((binEdge bins (argmax (gatedHist pixels min_sat min_val bins)) +
            binEdge bins (argmax (gatedHist pixels min_sat min_val bins) + 1)) / 2)),
        "hist_peak_bin_" ++ toString (argmax (gatedHist pixels min_sat min_val bins))) ∧
    (∀ j < (gatedHist pixels min_sat min_val bins).length,
      (gatedHist pixels min_sat min_val bins).getD j 0 ≤
        (gatedHist pixels min_sat min_val bins).getD
          (argmax (gatedHist pixels min_sat min_val bins)) 0) ∧
    (∀ j < argmax (gatedHist pixels min_sat min_val bins),
      (gatedHist pixels min_sat min_val bins).getD j 0 <
        (gatedHist pixels min_sat min_val bins).getD
          (argmax (gatedHist pixels min_sat min_val bins)) 0) := by
  have hne : gatedHist pixels min_sat min_val bins ≠ [] := by
    intro he
    rw [he] at hsum
    exact hsum rfl
  have hmax := getD_argmax hne
  have hlen : (gatedList pixels min_sat min_val).length ≠ 0 := by
    intro he
    exact hgate (List.length_eq_zero.mp he)
  refine ⟨?_, ?_, ?_⟩
  · show analyzePixels pixels min_sat min_val bins = _
    simp only [analyzePixels]
    rw [if_neg hlen, if_neg hsum]
  · intro j hj
    rw [hmax]
    exact le_listMax (getD_mem hj)
  · intro j hj
    rw [hmax]
    exact getD_lt_listMax_of_lt_argmax hj

/-- Witness for C1: the synthetic two-cluster grid (one pure-green, one
pure-blue pixel, equal weights).  The peak is a tie between the green bin
(12) and the blue bin (24); the lower-indexed green bin wins, giving
midpoint 125 and reason `hist_peak_bin_12`. -/
theorem dominant_hue_is_first_peak_midpoint_witness :
    gatedList greenBlueGrid DEFAULT_MIN_SAT DEFAULT_MIN_VAL ≠ [] ∧
    (gatedHist greenBlueGrid DEFAULT_MIN_SAT DEFAULT_MIN_VAL NUM_BINS).sum ≠ 0 ∧
    analyze_image_dominant_hue (.ok greenBlueGrid) DEFAULT_MIN_SAT
      DEFAULT_MIN_VAL NUM_BINS = (some 125, "hist_peak_bin_12") := by
  refine ⟨by with_unfolding_all decide, by with_unfolding_all decide, ?_⟩
  have h := (dominant_hue_is_first_peak_midpoint greenBlueGrid DEFAULT_MIN_SAT
    DEFAULT_MIN_VAL NUM_BINS (by with_unfolding_all decide)
    (by with_unfolding_all decide)).1
  rw [h]
  with_unfolding_all decide

/-- Claim C2: when no pixel passes the saturation/value gate, the
classifier returns hue `None` with a reason from the ordered cascade over
the ungated means: `"too_dark"` when the mean value is below 0.12,
otherwise `"low_saturation"` when the mean saturation is below 0.08,
otherwise `"no_pixels_after_filter"` — mutually exclusive branches checked
in exactly this order. -/
theorem no_gated_pixels_fallback_cascade (pixels : List RGB)
    (min_sat min_val : ℚ) (bins : ℕ) (_hne : pixels ≠ [])
    (hmask : gatedList pixels min_sat min_val = []) :
    (mean ((hsvList pixels).map HSV.v) < 12 / 100 →
      analyze_image_dominant_hue (.ok pixels) min_sat min_val bins =
        (none, "too_dark")) ∧
    (¬ mean ((hsvList pixels).map HSV.v) < 12 / 100 →
      mean ((hsvList pixels).map HSV.s) < 8 / 100 →
      analyze_image_dominant_hue (.ok pixels) min_sat min_val bins =
        (none, "low_saturation")) ∧
    (¬ mean ((hsvList pixels).map HSV.v) < 12 / 100 →
      ¬ mean ((hsvList pixels).map HSV.s) < 8 / 100 →
      analyze_image_dominant_hue (.ok pixels) min_sat min_val bins =
        (none, "no_pixels_after_filter")) := by
  have h0 : (gatedList pixels min_sat min_val).length = 0 := by
    rw [hmask]
    rfl
  refine ⟨fun hv => ?_, fun hv hs => ?_, fun hv hs => ?_⟩
  · show analyzePixels pixels min_sat min_val bins = _
    simp only [analyzePixels]
    rw [if_pos h0, if_pos hv]
  · show analyzePixels pixels min_sat min_val bins = _
    simp only [analyzePixels]
    rw [if_pos h0, if_neg hv, if_pos hs]
  · show analyzePixels pixels min_sat min_val bins = _
    simp only [analyzePixels]
    rw [if_pos h0, if_neg hv, if_neg hs]

/-- Witness for C2: the all-black grid — no pixel passes the gate and the
mean value 0 triggers the first branch of the cascade. -/
theorem no_gated_pixels_fallback_cascade_witness :
    blackGrid ≠ [] ∧
    gatedList blackGrid DEFAULT_MIN_SAT DEFAULT_MIN_VAL = [] ∧
    mean ((hsvList blackGrid).map HSV.v) < 12 / 100 ∧
    analyze_image_dominant_hue (.ok blackGrid) DEFAULT_MIN_SAT DEFAULT_MIN_VAL
      NUM_BINS = (none, "too_dark") := by
  refine ⟨by with_unfolding_all decide, by with_unfolding_all decide,
    by with_unfolding_all decide, ?_⟩
  exact (no_gated_pixels_fallback_cascade blackGrid DEFAULT_MIN_SAT
    DEFAULT_MIN_VAL NUM_BINS (by with_unfolding_all decide)
    (by with_unfolding_all decide)).1 (by with_unfolding_all decide)

/-- Every entry of `weightedData` has hue in [0,360) and a strictly
positive weight (for a grid with nonnegative channels). -/
theorem weightedData_entry {pixels : List RGB} {min_sat min_val : ℚ}
    (hch : ∀ p ∈ pixels, 0 ≤ p.r ∧ 0 ≤ p.g ∧ 0 ≤ p.b)
    {dw : ℚ × ℚ} (hdw : dw ∈ weightedData pixels min_sat min_val) :
    0 ≤ dw.1 ∧ dw.1 < 360 ∧ 0 < dw.2 := by
  rcases List.mem_map.mp hdw with ⟨t, ht, rfl⟩
  have htl : t ∈ hsvList pixels := List.mem_of_mem_filter ht
  rcases List.mem_map.mp htl with ⟨p, hp, rfl⟩
  obtain ⟨h0, h1⟩ := hsv_h_range p
  obtain ⟨hs, hv⟩ :=
    hsv_sv_nonneg (hch p hp).1 (hch p hp).2.1 (hch p hp).2.2
  refine ⟨mul_nonneg h0 (by norm_num), ?_, ?_⟩
  · have := mul_lt_mul_of_pos_right h1 (show (0:ℚ) < 360 by norm_num)
    linarith
  · have := mul_nonneg hs hv
    show 0 < _ * _ + 1 / 1000000
    linarith

/-- Claim C7: whenever at least one pixel passes the gate (on a grid with
nonnegative channels), every gated pixel contributes weight
`s*v + 1e-6 > 0`, so the histogram's total weight is strictly positive and
the defensive `"empty_histogram"` branch is unreachable. -/
theorem gated_histogram_total_positive (pixels : List RGB)
    (min_sat min_val : ℚ) (bins : ℕ) (hbins : 0 < bins)
    (hch : ∀ p ∈ pixels, 0 ≤ p.r ∧ 0 ≤ p.g ∧ 0 ≤ p.b)
    (hgate : gatedList pixels min_sat min_val ≠ []) :
    0 < (gatedHist pixels min_sat min_val bins).sum ∧
    (analyze_image_dominant_hue (.ok pixels) min_sat min_val bins).2 ≠
      "empty_histogram" := by
  have hwd : weightedData pixels min_sat min_val ≠ [] := by
    intro he
    exact hgate (List.map_eq_nil_iff.mp he)
  obtain ⟨d0, hd0⟩ := List.exists_mem_of_ne_nil _ hwd
  obtain ⟨hd1, hd2, hd3⟩ := weightedData_entry hch hd0
  obtain ⟨hidx, hjlt⟩ := npBinIdx_of_range hbins hd1 hd2
  have hwnn : ∀ dw ∈ weightedData pixels min_sat min_val, 0 ≤ dw.2 :=
    fun dw hdw => le_of_lt (weightedData_entry hch hdw).2.2
  have hbin_nonneg : ∀ i : ℕ,
      0 ≤ (((weightedData pixels min_sat min_val).filter
        (fun dw => decide (npBinIdx bins dw.1 = some i))).map Prod.snd).sum := by
    intro i
    apply List.sum_nonneg
    intro y hy
    rcases List.mem_map.mp hy with ⟨dw, hdw, rfl⟩
    exact hwnn dw (List.mem_of_mem_filter hdw)
  have hbinj_pos :
      0 < (((weightedData pixels min_sat min_val).filter
        (fun dw => decide (npBinIdx bins dw.1 =
          some (Rat.floor (d0.1 * (bins : ℚ) / 360)).toNat))).map Prod.snd).sum := by
    apply sum_pos_of_mem (x := d0.2)
    · exact List.mem_map_of_mem _
        (List.mem_filter.mpr ⟨hd0, by simp [hidx]⟩)
    · exact hd3
    · intro y hy
      rcases List.mem_map.mp hy with ⟨dw, hdw, rfl⟩
      exact hwnn dw (List.mem_of_mem_filter hdw)
  have hsum_pos : 0 < (gatedHist pixels min_sat min_val bins).sum := by
    apply sum_pos_of_mem
      (x := (((weightedData pixels min_sat min_val).filter
        (fun dw => decide (npBinIdx bins dw.1 =
          some (Rat.floor (d0.1 * (bins : ℚ) / 360)).toNat))).map Prod.snd).sum)
    · exact List.mem_map_of_mem _ (List.mem_range.mpr hjlt)
    · exact hbinj_pos
    · intro y hy
      rcases List.mem_map.mp hy with ⟨i, _, rfl⟩
      exact hbin_nonneg i
  refine ⟨hsum_pos, ?_⟩
  have hlen : (gatedList pixels min_sat min_val).length ≠ 0 := by
    intro he
    exact hgate (List.length_eq_zero.mp he)
  show (analyzePixels pixels min_sat min_val bins).2 ≠ _
  simp only [analyzePixels]
  rw [if_neg hlen, if_neg (ne_of_gt hsum_pos)]
  exact hist_peak_ne _

/-- Witness for C7: the single pure-red pixel grid. -/
theorem gated_histogram_total_positive_witness :
    0 < NUM_BINS ∧
    (∀ p ∈ redGrid, 0 ≤ p.r ∧ 0 ≤ p.g ∧ 0 ≤ p.b) ∧
    gatedList redGrid DEFAULT_MIN_SAT DEFAULT_MIN_VAL ≠ [] ∧
    (0 < (gatedHist redGrid DEFAULT_MIN_SAT DEFAULT_MIN_VAL NUM_BINS).sum ∧
      (analyze_image_dominant_hue (.ok redGrid) DEFAULT_MIN_SAT DEFAULT_MIN_VAL
        NUM_BINS).2 ≠ "empty_histogram") :=
  ⟨by decide, by with_unfolding_all decide, by with_unfolding_all decide,
    gated_histogram_total_positive redGrid DEFAULT_MIN_SAT DEFAULT_MIN_VAL
      NUM_BINS (by decide) (by with_unfolding_all decide)
      (by with_unfolding_all decide)⟩

/-- Claim C8: for every hue in [0,360) the fixed range table fully tiles
the circle, so the mapper returns one of the eight named colors and the
`"other"` fallback is unreachable for in-range hues. -/
theorem color_ranges_tile_circle (h : ℚ) (h0 : 0 ≤ h) (h1 : h < 360) :
    hue_to_color_name (some h) ∈
      ["red", "orange", "yellow", "green", "cyan", "blue", "purple", "pink"] := by
  simp only [hue_to_color_name]
  rcases lt_or_le h 15 with hx | hb15
  · have hn345 : ¬ (345:ℚ) ≤ h := by linarith
    simp +decide [firstColor, COLOR_RANGES, matchRanges, h0, hx, hn345]
  have hf15 : ¬ h < 15 := not_lt.mpr hb15
  rcases lt_or_le h 30 with hx | hb30
  · have hn345 : ¬ (345:ℚ) ≤ h := by linarith
    simp +decide [firstColor, COLOR_RANGES, matchRanges, hb15, hx, hn345, hf15]
  have hf30 : ¬ h < 30 := not_lt.mpr hb30
  rcases lt_or_le h 60 with hx | hb60
  · have hn345 : ¬ (345:ℚ) ≤ h := by linarith
    simp +decide [firstColor, COLOR_RANGES, matchRanges, hb30, hx, hn345, hf15,
      hf30]
  have hf60 : ¬ h < 60 := not_lt.mpr hb60
  rcases lt_or_le h 170 with hx | hb170
  · have hn345 : ¬ (345:ℚ) ≤ h := by linarith
    simp +decide [firstColor, COLOR_RANGES, matchRanges, hb60, hx, hn345, hf15,
      hf30, hf60]
  have hf170 : ¬ h < 170 := not_lt.mpr hb170
  rcases lt_or_le h 200 with hx | hb200
  · have hn345 : ¬ (345:ℚ) ≤ h := by linarith
    simp +decide [firstColor, COLOR_RANGES, matchRanges, hb170, hx, hn345, hf15,
      hf30, hf60, hf170]
  have hf200 : ¬ h < 200 := not_lt.mpr hb200
  rcases lt_or_le h 260 with hx | hb260
  · have hn345 : ¬ (345:ℚ) ≤ h := by linarith
    simp +decide [firstColor, COLOR_RANGES, matchRanges, hb200, hx, hn345, hf15,
      hf30, hf60, hf170, hf200]
  have hf260 : ¬ h < 260 := not_lt.mpr hb260
  rcases lt_or_le h 300 with hx | hb300
  · have hn345 : ¬ (345:ℚ) ≤ h := by linarith
    simp +decide [firstColor, COLOR_RANGES, matchRanges, hb260, hx, hn345, hf15,
      hf30, hf60, hf170, hf200, hf260]
  have hf300 : ¬ h < 300 := not_lt.mpr hb300
  rcases lt_or_le h 345 with hx | hb345
  · have hn345 : ¬ (345:ℚ) ≤ h := by linarith
    simp +decide [firstColor, COLOR_RANGES, matchRanges, hb300, hx, hn345, hf15,
      hf30, hf60, hf170, hf200, hf260, hf300]
  · simp +decide [firstColor, COLOR_RANGES, matchRanges, hb345, h1]

/-- Witness for C8: hue 100 lies in [0,360) and is labelled `"green"`. -/
theorem color_ranges_tile_circle_witness :
    (0:ℚ) ≤ 100 ∧ (100:ℚ) < 360 ∧
      hue_to_color_name (some 100) ∈
        ["red", "orange", "yellow", "green", "cyan", "blue", "purple", "pink"] :=
  ⟨by norm_num, by norm_num,
    color_ranges_tile_circle 100 (by norm_num) (by norm_num)⟩

/-- A map whose values are all zero is a replicate of zeros. -/
theorem map_eq_replicate_zero {α : Type} {f : α → ℚ} :
    ∀ {l : List α}, (∀ a ∈ l, f a = 0) →
      l.map f = List.replicate l.length 0 := by
  intro l
  induction l with
  | nil => intro _; rfl
  | cons a t ih =>
    intro hall
    rw [List.map_cons, hall a (List.mem_cons_self _ _), List.length_cons,
      List.replicate_succ, ih (fun b hb => hall b (List.mem_cons_of_mem _ hb))]

/-- The default-36-bin histogram of `n` copies of a datum assigned to
bin 0: all weight in bucket 0, every other bucket zero. -/
theorem histogram_replicate_bin0 (n : ℕ) (d : ℚ × ℚ)
    (hd : npBinIdx NUM_BINS d.1 = some 0) :
    histogram NUM_BINS (List.replicate n d) =
      (n • d.2) :: List.replicate 35 0 := by
  have hr : List.range NUM_BINS = 0 :: List.map Nat.succ (List.range 35) :=
    List.range_succ_eq_map 35
  simp only [histogram]
  rw [hr, List.map_cons, List.map_map]
  congr 1
  · show (((List.replicate n d).filter
        (fun dw => decide (npBinIdx NUM_BINS dw.1 = some 0))).map
          Prod.snd).sum = n • d.2
    rw [filter_replicate, if_pos (by simp [hd]), List.map_replicate,
      List.sum_replicate]
  · have hz : ∀ j ∈ List.range 35,
        ((fun i => (((List.replicate n d).filter
          (fun dw => decide (npBinIdx NUM_BINS dw.1 = some i))).map
            Prod.snd).sum) ∘ Nat.succ) j = 0 := by
      intro j _
      show (((List.replicate n d).filter
        (fun dw => decide (npBinIdx NUM_BINS dw.1 = some (Nat.succ j)))).map
          Prod.snd).sum = 0
      rw [filter_replicate, if_neg (by
        simp only [hd, decide_eq_true_eq, Option.some.injEq]
        omega)]
      rfl
    rw [map_eq_replicate_zero hz, List.length_range]

/-- Claim C5: for a (nonempty) grid whose pixels all have saturation 1,
value 1 and hue exactly 0, the classifier returns hue 5 — the midpoint of
the first 10° bucket, the bucket containing 0 (so 0 mod-equivalent up to
bin resolution) — with reason `hist_peak_bin_0`, and the label is
`"red"`. -/
theorem pure_red_peak_bin_zero (pixels : List RGB) (hne : pixels ≠ [])
    (hall : ∀ p ∈ pixels, rgb_to_hsv p = ⟨0, 1, 1⟩) :
    analyze_image_dominant_hue (.ok pixels) DEFAULT_MIN_SAT DEFAULT_MIN_VAL
        NUM_BINS = (some 5, "hist_peak_bin_0") ∧
    binEdge NUM_BINS 0 ≤ 5 ∧ (5:ℚ) < binEdge NUM_BINS 1 ∧
    assign_color (some 5) "hist_peak_bin_0" = "red" := by
  have h1 : hsvList pixels = List.replicate pixels.length ⟨0, 1, 1⟩ := by
    simp only [hsvList]
    have hlen : (pixels.map rgb_to_hsv).length = pixels.length := by simp
    rw [← hlen]
    refine List.eq_replicate_length.mpr ?_
    intro b hb
    rcases List.mem_map.mp hb with ⟨p, hp, rfl⟩
    exact hall p hp
  have h2 : gatedList pixels DEFAULT_MIN_SAT DEFAULT_MIN_VAL =
      List.replicate pixels.length ⟨0, 1, 1⟩ := by
    simp only [gatedList, h1]
    rw [filter_replicate, if_pos (by with_unfolding_all decide)]
  have h3 : weightedData pixels DEFAULT_MIN_SAT DEFAULT_MIN_VAL =
      List.replicate pixels.length
        ((0:ℚ) * 360, (1:ℚ) * 1 + 1 / 1000000) := by
    simp only [weightedData, h2, List.map_replicate]
  have hd : npBinIdx NUM_BINS (((0:ℚ) * 360, (1:ℚ) * 1 + 1 / 1000000)).1 =
      some 0 := by
    with_unfolding_all decide
  have hh : gatedHist pixels DEFAULT_MIN_SAT DEFAULT_MIN_VAL NUM_BINS =
      (pixels.length • ((1:ℚ) * 1 + 1 / 1000000)) :: List.replicate 35 0 := by
    simp only [gatedHist, h3]
    rw [histogram_replicate_bin0 _ _ hd]
  have hn : 0 < pixels.length := List.length_pos.mpr hne
  have hw : (0:ℚ) < (1:ℚ) * 1 + 1 / 1000000 := by norm_num
  have hsmul : (0:ℚ) < pixels.length • ((1:ℚ) * 1 + 1 / 1000000) := by
    rw [nsmul_eq_mul]
    exact mul_pos (by exact_mod_cast hn) hw
  have hsum_ne :
      (gatedHist pixels DEFAULT_MIN_SAT DEFAULT_MIN_VAL NUM_BINS).sum ≠ 0 := by
    rw [hh, List.sum_cons, List.sum_replicate, smul_zero, add_zero]
    exact ne_of_gt hsmul
  have harg :
      argmax (gatedHist pixels DEFAULT_MIN_SAT DEFAULT_MIN_VAL NUM_BINS) = 0 := by
    rw [hh]
    apply argmax_cons_of_le
    intro y hy
    rw [List.eq_of_mem_replicate hy]
    exact le_of_lt hsmul
  have hlen : (gatedList pixels DEFAULT_MIN_SAT DEFAULT_MIN_VAL).length ≠ 0 := by
    rw [h2, List.length_replicate]
    intro he
    exact hne (List.length_eq_zero.mp he)
  refine ⟨?_, by with_unfolding_all decide, by with_unfolding_all decide,
    by with_unfolding_all decide⟩
  show analyzePixels pixels DEFAULT_MIN_SAT DEFAULT_MIN_VAL NUM_BINS = _
  simp only [analyzePixels]
  rw [if_neg hlen, if_neg hsum_ne, harg]
  with_unfolding_all decide

/-- Witness for C5: the single pure-red pixel. -/
theorem pure_red_peak_bin_zero_witness :
    redGrid ≠ [] ∧ (∀ p ∈ redGrid, rgb_to_hsv p = ⟨0, 1, 1⟩) ∧
    (analyze_image_dominant_hue (.ok redGrid) DEFAULT_MIN_SAT DEFAULT_MIN_VAL
        NUM_BINS = (some 5, "hist_peak_bin_0") ∧
      binEdge NUM_BINS 0 ≤ 5 ∧ (5:ℚ) < binEdge NUM_BINS 1 ∧
      assign_color (some 5) "hist_peak_bin_0" = "red") :=
  ⟨by decide, by with_unfolding_all decide,
    pure_red_peak_bin_zero redGrid (by decide) (by with_unfolding_all decide)⟩

/-- Counterexample to C10 as stated: for the single-pixel grid whose pixel
has hue exactly 15 degrees, the classifier (default 36 bins) returns hue
15 — the bin-1 midpoint — which IS the exact hue of that individual
pixel. -/
theorem peak_hue_equals_pixel_hue :
    analyze_image_dominant_hue (.ok hue15Grid) DEFAULT_MIN_SAT DEFAULT_MIN_VAL
        36 = (some 15, "hist_peak_bin_1") ∧
    (rgb_to_hsv ⟨1, 1/4, 0⟩).h * 360 = 15 ∧
    hue15Grid = [⟨1, 1/4, 0⟩] :=
  ⟨by with_unfolding_all decide, by with_unfolding_all decide, rfl⟩

/-- Claim C10 (amended): with the default 36 bins, a returned non-`None`
hue always equals `10*i + 5` for the reported peak bin index `i ≤ 35`, so
it lies in [5,355] — strictly inside [0,360) and never exactly 0.  (It
can, however, coincide with the exact hue of an individual pixel.) -/
theorem default_bins_peak_midpoint_form (pixels : List RGB)
    (min_sat min_val : ℚ) (h : ℚ) (r : String)
    (hres : analyze_image_dominant_hue (.ok pixels) min_sat min_val 36 =
      (some h, r)) :
    ∃ i : ℕ, i ≤ 35 ∧ r = "hist_peak_bin_" ++ toString i ∧
      h = 10 * i + 5 ∧ 5 ≤ h ∧ h ≤ 355 ∧ h ≠ 0 := by
  have hres' : analyzePixels pixels min_sat min_val 36 = (some h, r) := hres
  by_cases h1 : (gatedList pixels min_sat min_val).length = 0
  · exfalso
    simp only [analyzePixels, if_pos h1] at hres'
    split_ifs at hres' <;> simp at hres'
  by_cases h2 : (gatedHist pixels min_sat min_val 36).sum = 0
  · exfalso
    simp only [analyzePixels, if_neg h1, if_pos h2] at hres'
    simp at hres'
  simp only [analyzePixels, if_neg h1, if_neg h2, Prod.mk.injEq,
    Option.some.injEq] at hres'
  obtain ⟨hh, hr⟩ := hres'
  have hlen36 : (gatedHist pixels min_sat min_val 36).length = 36 := by
    simp only [gatedHist]
    exact histogram_length 36 _
  have hne : gatedHist pixels min_sat min_val 36 ≠ [] := by
    intro he
    rw [he] at hlen36
    simp at hlen36
  have hilt : argmax (gatedHist pixels min_sat min_val 36) < 36 := by
    have := argmax_lt_length hne
    rw [hlen36] at this
    exact this
  set i := argmax (gatedHist pixels min_sat min_val 36) with hi
  have hile : i ≤ 35 := by omega
  have hca : (i:ℚ) ≤ 35 := by exact_mod_cast hile
  have hcn : (0:ℚ) ≤ (i:ℚ) := by positivity
  have hmid : (binEdge 36 i + binEdge 36 (i + 1)) / 2 = 10 * i + 5 := by
    simp only [binEdge]
    push_cast
    ring
  have hq : qmod360 (10 * (i:ℚ) + 5) = 10 * i + 5 := by
    rw [qmod360, ratFloor_eq_floor]
    have hz : ⌊(10 * (i:ℚ) + 5) / 360⌋ = 0 := by
      apply Int.floor_eq_zero_iff.mpr
      refine Set.mem_Ico.mpr ⟨by positivity, ?_⟩
      rw [div_lt_one (by norm_num)]
      linarith
    rw [hz]
    push_cast
    ring
  have heq : h = 10 * i + 5 := by
    rw [← hh, hmid, hq]
  exact ⟨i, hile, hr.symm, heq, by rw [heq]; linarith, by rw [heq]; linarith,
    by rw [heq]; intro hc; linarith⟩

/-- Witness for the amended C10: the single pure-red pixel grid. -/
theorem default_bins_peak_midpoint_form_witness :
    analyze_image_dominant_hue (.ok redGrid) DEFAULT_MIN_SAT DEFAULT_MIN_VAL
        36 = (some 5, "hist_peak_bin_0") ∧
    (∃ i : ℕ, i ≤ 35 ∧ "hist_peak_bin_0" = "hist_peak_bin_" ++ toString i ∧
      (5:ℚ) = 10 * i + 5 ∧ (5:ℚ) ≤ 5 ∧ (5:ℚ) ≤ 355 ∧ (5:ℚ) ≠ 0) :=
  ⟨by with_unfolding_all decide,
    default_bins_peak_midpoint_form redGrid DEFAULT_MIN_SAT DEFAULT_MIN_VAL 5
      "hist_peak_bin_0" (by with_unfolding_all decide)⟩

